import Mathlib

/-!
Shallow embedding of the two converters of the photospider repository:

* `src/util/99-filed/to_json.py`  (variant A, "stats mode"): reads a
  0x1E-delimited git log, parses per-record numstat tables, emits a JSON
  array of commit records.
* `src/util/99-filed/to_jsonl.py` (variant B, "patch mode"): reads a
  0x1E-delimited git log with full patches, emits one JSON object per line.

Strings are modelled as `List Char` (the decoded text, i.e. the value of
`data` after `f.read().decode('utf-8', errors='replace')`; decoding itself
is outside the embedded fragment, which starts from the decoded string).
Each Python string primitive used by the source is embedded as an
executable Lean function on `List Char`.
-/

/-- Embedding of CPython `str.isspace` / the whitespace set stripped by
`str.strip()` and `int()`: ASCII whitespace 0x09-0x0D, the file/group/
record/unit separators 0x1C-0x1F, space, NEL 0x85, NBSP 0xA0 and the
Unicode space-category code points. -/
def pyIsSpace (c : Char) : Bool :=
  decide (c.toNat = 32 ∨ (9 ≤ c.toNat ∧ c.toNat ≤ 13) ∨ (28 ≤ c.toNat ∧ c.toNat ≤ 31) ∨
    c.toNat = 133 ∨ c.toNat = 160 ∨ c.toNat = 5760 ∨
    (8192 ≤ c.toNat ∧ c.toNat ≤ 8202) ∨ c.toNat = 8232 ∨ c.toNat = 8233 ∨
    c.toNat = 8239 ∨ c.toNat = 8287 ∨ c.toNat = 12288)

/-- Embedding of Python `s.strip()` with no argument: remove leading and
trailing whitespace characters. -/
def pyStrip (cs : List Char) : List Char :=
  ((cs.dropWhile pyIsSpace).reverse.dropWhile pyIsSpace).reverse

/-- Embedding of Python `s.split(c)` for a one-character separator `c`
with no maxsplit: every occurrence of `c` separates two (possibly empty)
fragments; `''.split(c) = ['']`. -/
def splitCh (c : Char) : List Char → List (List Char)
  | [] => [[]]
  | x :: xs =>
    if x = c then [] :: splitCh c xs
    else
      match splitCh c xs with
      | [] => [[x]]
      | t :: ts => (x :: t) :: ts

/-- Embedding of Python `s.split(c, maxsplit)` for a one-character
separator: at most `maxsplit` splits are performed, the remainder is kept
whole as the last fragment. -/
def splitChM (c : Char) : Nat → List Char → List (List Char)
  | _, [] => [[]]
  | 0, x :: xs => [x :: xs]
  | Nat.succ n, x :: xs =>
    if x = c then [] :: splitChM c n xs
    else
      match splitChM c (Nat.succ n) xs with
      | [] => [[x]]
      | t :: ts => (x :: t) :: ts

/-- Embedding of the line-boundary set of Python `str.splitlines`:
LF, VT, FF, CR, FS, GS, RS, NEL, LINE SEPARATOR, PARAGRAPH SEPARATOR
("\r\n" is treated as a single boundary by `pySplitlines` itself). -/
def pyIsLineBreak (c : Char) : Bool :=
  decide (c.toNat = 10 ∨ c.toNat = 11 ∨ c.toNat = 12 ∨ c.toNat = 13 ∨
    c.toNat = 28 ∨ c.toNat = 29 ∨ c.toNat = 30 ∨ c.toNat = 133 ∨
    c.toNat = 8232 ∨ c.toNat = 8233)

/-- Embedding of Python `s.splitlines()` (without keepends): split at every
line boundary, treating "\r\n" as one boundary, and do not produce a final
empty line for a trailing boundary; `''.splitlines() = []`. -/
def pySplitlines : List Char → List (List Char)
  | [] => []
  | '\r' :: '\n' :: rest => [] :: pySplitlines rest
  | x :: xs =>
    if pyIsLineBreak x then [] :: pySplitlines xs
    else
      match pySplitlines xs with
      | [] => [[x]]
      | t :: ts => (x :: t) :: ts

/-- Embedding of Python `c.join(pieces)` for a one-character separator
(used by the source as `'\t'.join(cols[2:])`). -/
def joinSep (c : Char) : List (List Char) → List Char
  | [] => []
  | [p] => p
  | p :: q :: ps => p ++ c :: joinSep c (q :: ps)

/-- ASCII decimal digit test (the digits accepted by the embedded
`int()`; CPython additionally accepts non-ASCII category-Nd digits, which
never occur in the inputs considered here). -/
def isDig (c : Char) : Bool :=
  decide (48 ≤ c.toNat ∧ c.toNat ≤ 57)

/-- Digit-tail parser of the embedded `int()`: after a first digit, a
digit string may continue with digits, with single underscores allowed
only between two digits (CPython grammar `digit (["_"] digit)*`). -/
def digRest (acc : Nat) : List Char → Option Nat
  | [] => some acc
  | c :: cs =>
    if isDig c then digRest (acc * 10 + (c.toNat - 48)) cs
    else if c = '_' then
      match cs with
      | [] => none
      | c2 :: cs2 =>
        if isDig c2 then digRest (acc * 10 + (c2.toNat - 48)) cs2 else none
    else none

/-- Start of the digit part of the embedded `int()`: at least one digit is
required. -/
def startDig : List Char → Option Nat
  | [] => none
  | c :: cs => if isDig c then digRest (c.toNat - 48) cs else none

/-- Embedding of Python `int(s)` on strings (base 10): strip surrounding
whitespace, accept one optional sign, then a nonempty digit string with
optional single underscores between digits; `none` models a raised
`ValueError`. This is the parser applied after stripping. -/
def pyIntCore : List Char → Option Int
  | [] => none
  | c :: r =>
    if c = '+' then (startDig r).map Int.ofNat
    else if c = '-' then (startDig r).map (fun n => -(Int.ofNat n))
    else (startDig (c :: r)).map Int.ofNat

/-- Embedding of Python `int(s)` on strings (base 10): strip surrounding
whitespace, then parse sign and digit string. -/
def pyInt (cs : List Char) : Option Int :=
  pyIntCore (pyStrip cs)

/-- One entry of the per-commit `files` list of variant A
(`{'path': ..., 'added': ..., 'deleted': ...}` in `to_json.py`). -/
structure FileChange where
  path : String
  added : Int
  deleted : Int
deriving DecidableEq

/-- One output record of variant A (`to_json.py`). -/
structure CommitA where
  sha : String
  date : String
  author : String
  email : String
  subject : String
  body : String
  files : List FileChange
deriving DecidableEq

/-- One output record of variant B (`to_jsonl.py`). -/
structure CommitB where
  sha : String
  date : String
  author : String
  email : String
  subject : String
  body : String
  file_diffs : Nat
  patch : String
deriving DecidableEq

/-- Both sources: `records = [r for r in data.split('\x1e') if r.strip()]`:
split the decoded text on the record separator and keep the fragments with
a non-whitespace character. -/
def recordsOf (data : String) : List (List Char) :=
  (splitCh '\x1e' data.data).filter (fun r => !(pyStrip r).isEmpty)

/-- Variant A: `header, *rest = rec.split('\n', 1)` then
`parts = header.split('\x1f')`: the unit-separator fields of the first
line of a record. -/
def headerParts (rec : List Char) : List (List Char) :=
  splitCh '\x1f' ((splitChM '\n' 1 rec).getD 0 [])

/-- Variant A: `body_plus = rest[0] if rest else ''`: everything after the
first newline of the record. -/
def bodyPart (rec : List Char) : List Char :=
  (splitChM '\n' 1 rec).getD 1 []

/-- Variant A, stat-line gate (`to_json.py` lines 23-25): the line contains
a tab, splits into at least 3 tab columns, and the first two columns are
non-blank (`cols[0].strip()` and `cols[1].strip()` truthy). -/
def statGate (line : List Char) : Bool :=
  line.contains '\t' && decide (3 ≤ (splitCh '\t' line).length) &&
    !(pyStrip ((splitCh '\t' line).getD 0 [])).isEmpty &&
    !(pyStrip ((splitCh '\t' line).getD 1 [])).isEmpty

/-- First tab column of a stat line (`cols[0]`). -/
def statCol0 (line : List Char) : List Char :=
  (splitCh '\t' line).getD 0 []

/-- Second tab column of a stat line (`cols[1]`). -/
def statCol1 (line : List Char) : List Char :=
  (splitCh '\t' line).getD 1 []

/-- Variant A count conversion (`0 if add == '-' else int(add)`): the
literal "-" means zero, anything else goes through `int()`. -/
def parseCount (cs : List Char) : Option Int :=
  if cs = ['-'] then some 0 else pyInt cs

/-- Variant A, one body line of the stat loop (`to_json.py` lines 21-31):
`some none` means the line is skipped, `some (some fc)` appends a
FileChange, `none` models the uncaught `ValueError` of `int()`. -/
def parseStatLine (line : List Char) : Option (Option FileChange) :=
  if statGate line then
    match parseCount (statCol0 line), parseCount (statCol1 line) with
    | some a, some d =>
        some (some ⟨String.mk (joinSep '\t' ((splitCh '\t' line).drop 2)), a, d⟩)
    | _, _ => none
  else some none

/-- Variant A, the whole stat loop over the body lines: an error on any
line aborts, otherwise the accepted FileChange entries are collected in
line order. -/
def parseStatLines : List (List Char) → Option (List FileChange)
  | [] => some []
  | l :: ls =>
    match parseStatLine l with
    | none => none
    | some none => parseStatLines ls
    | some (some fc) => (parseStatLines ls).map (fun fcs => fc :: fcs)

/-- Variant A, one record of the main loop of `to_json.py` (lines 11-41):
header fields are the unit-separator fields of the first line padded to
six with empty strings (`(parts + ['']*6)[:6]`, embedded index-wise as
`getD i []`), the body field is stripped, and the files list comes from
the stat loop; `none` models an uncaught exception, which aborts the run. -/
def parseRecordA (rec : List Char) : Option CommitA :=
  (parseStatLines (pySplitlines (bodyPart rec))).map (fun files =>
    { sha := String.mk ((headerParts rec).getD 0 [])
      date := String.mk ((headerParts rec).getD 1 [])
      author := String.mk ((headerParts rec).getD 2 [])
      email := String.mk ((headerParts rec).getD 3 [])
      subject := String.mk ((headerParts rec).getD 4 [])
      body := String.mk (pyStrip ((headerParts rec).getD 5 []))
      files := files })

/-- `optMap f xs` is `some` of the list of results when `f` succeeds on
every element, `none` as soon as one fails: the abort-on-first-exception
behaviour of the variant A record loop. -/
def optMap (f : α → Option β) : List α → Option (List β)
  | [] => some []
  | a :: as =>
    match f a with
    | none => none
    | some b => (optMap f as).map (fun bs => b :: bs)

/-- Variant A end to end (from decoded text to the list serialized into
`changes.json`): `none` when the run aborts on a malformed record. -/
def convertA (data : String) : Option (List CommitA) :=
  optMap parseRecordA (recordsOf data)

/-- Variant B: `parts = rec.split('\x1f', 6)` of `parse_record`. -/
def recPartsB (rec : List Char) : List (List Char) :=
  splitChM '\x1f' 6 rec

/-- The marker whose line-anchored occurrences `parse_record` counts:
the characters of "diff --git ". -/
def dgMarker : List Char :=
  ['d', 'i', 'f', 'f', ' ', '-', '-', 'g', 'i', 't', ' ']

/-- Scanner embedding `re.finditer(r'(?m)^diff --git ', patch)` counting:
walk the text, and at every line start (offset 0 or the position right
after a '\n') count a match of `dgMarker`. Since the marker contains no
newline, occurrences at distinct line starts never overlap, so counting
positions is the same as counting the non-overlapping matches of
`finditer`. -/
def countDGaux : Bool → List Char → Nat
  | _, [] => 0
  | atLineStart, x :: xs =>
    (if atLineStart && dgMarker.isPrefixOf (x :: xs) then 1 else 0) +
      countDGaux (x == '\n') xs

/-- Variant B, `parse_record` of `to_jsonl.py` (lines 13-34): split the
record on the unit separator with maxsplit 6, pad the six header fields
with empty strings, take the 7th part (default empty) as the patch,
strip its leading newlines (`patch.lstrip('\n')`), and count the
`diff --git ` line starts in it. -/
def parse_record (rec : List Char) : CommitB :=
  { sha := String.mk ((recPartsB rec).getD 0 [])
    date := String.mk ((recPartsB rec).getD 1 [])
    author := String.mk ((recPartsB rec).getD 2 [])
    email := String.mk ((recPartsB rec).getD 3 [])
    subject := String.mk ((recPartsB rec).getD 4 [])
    body := String.mk (pyStrip ((recPartsB rec).getD 5 []))
    file_diffs := countDGaux true (((recPartsB rec).getD 6 []).dropWhile (fun c => c == '\n'))
    patch := String.mk (((recPartsB rec).getD 6 []).dropWhile (fun c => c == '\n')) }

/-- Variant B end to end (from decoded text to the record sequence written
to `commits_with_diffs.jsonl`, one per line, in order). -/
def convertB (data : String) : List CommitB :=
  (recordsOf data).map parse_record

/-! ### Helper lemmas about the embedded string primitives -/

theorem splitCh_ne_nil (c : Char) (cs : List Char) : splitCh c cs ≠ [] := by
  cases cs with
  | nil => simp [splitCh]
  | cons x xs =>
    rw [splitCh]
    split
    · simp
    · split <;> simp

theorem splitChM_zero (c : Char) (cs : List Char) : splitChM c 0 cs = [cs] := by
  cases cs <;> rfl

theorem splitCh_append_cons (c : Char) (t rest : List Char) (h : c ∉ t) :
    splitCh c (t ++ c :: rest) = t :: splitCh c rest := by
  induction t with
  | nil => simp [splitCh]
  | cons x xs ih =>
    have hx : ¬ x = c := fun e => h (by simp [e])
    have hxs : c ∉ xs := fun hm => h (List.mem_cons_of_mem _ hm)
    simp only [List.cons_append, splitCh, if_neg hx, List.append_eq, ih hxs]

theorem splitChM_append_cons (c : Char) (n : Nat) (t rest : List Char) (h : c ∉ t) :
    splitChM c (n + 1) (t ++ c :: rest) = t :: splitChM c n rest := by
  induction t with
  | nil => simp [splitChM]
  | cons x xs ih =>
    have hx : ¬ x = c := fun e => h (by simp [e])
    have hxs : c ∉ xs := fun hm => h (List.mem_cons_of_mem _ hm)
    simp only [List.cons_append, splitChM, if_neg hx, List.append_eq, ih hxs]

theorem splitCh_of_not_mem (c : Char) (t : List Char) (h : c ∉ t) :
    splitCh c t = [t] := by
  induction t with
  | nil => rfl
  | cons x xs ih =>
    have hx : ¬ x = c := fun e => h (by simp [e])
    have hxs : c ∉ xs := fun hm => h (List.mem_cons_of_mem _ hm)
    simp only [splitCh, if_neg hx, ih hxs]

theorem mem_joinSep {x c : Char} {ps : List (List Char)} (hx : x ∈ joinSep c ps) :
    x = c ∨ ∃ p ∈ ps, x ∈ p := by
  induction ps with
  | nil => simp [joinSep] at hx
  | cons p ps ih =>
    cases ps with
    | nil =>
      simp only [joinSep] at hx
      exact Or.inr ⟨p, by simp, hx⟩
    | cons q ps2 =>
      simp only [joinSep] at hx
      rcases List.mem_append.mp hx with h1 | h2
      · exact Or.inr ⟨p, by simp, h1⟩
      · rcases List.mem_cons.mp h2 with rfl | h3
        · exact Or.inl rfl
        · rcases ih h3 with h4 | ⟨r, hr, hxr⟩
          · exact Or.inl h4
          · exact Or.inr ⟨r, List.mem_cons_of_mem _ hr, hxr⟩

theorem joinSep_split (c : Char) (ps : List (List Char)) (hne : ps ≠ [])
    (h : ∀ p ∈ ps, c ∉ p) : splitCh c (joinSep c ps) = ps := by
  induction ps with
  | nil => exact absurd rfl hne
  | cons p ps ih =>
    cases ps with
    | nil => simp [joinSep, splitCh_of_not_mem c p (h p (by simp))]
    | cons q ps2 =>
      have hj : joinSep c (p :: q :: ps2) = p ++ c :: joinSep c (q :: ps2) := rfl
      rw [hj, splitCh_append_cons c p _ (h p (by simp)),
        ih (by simp) (fun r hr => h r (List.mem_cons_of_mem _ hr))]

theorem optMap_eq_some {α β : Type} {f : α → Option β} {xs : List α} {ys : List β}
    (h : optMap f xs = some ys) :
    ys.length = xs.length ∧
      ∀ (i : Nat) (h1 : i < xs.length) (h2 : i < ys.length),
        f (xs.get ⟨i, h1⟩) = some (ys.get ⟨i, h2⟩) := by
  induction xs generalizing ys with
  | nil =>
    simp only [optMap, Option.some.injEq] at h
    subst h
    exact ⟨rfl, fun i h1 _ => absurd h1 (by simp)⟩
  | cons a as ih =>
    simp only [optMap] at h
    cases hfa : f a with
    | none => rw [hfa] at h; exact absurd h (by simp)
    | some b =>
      rw [hfa] at h
      cases hrest : optMap f as with
      | none => rw [hrest] at h; exact absurd h (by simp)
      | some bs =>
        rw [hrest] at h
        have h2 : b :: bs = ys := by simpa using h
        subst h2
        obtain ⟨hl, hg⟩ := ih hrest
        refine ⟨by simp [hl], ?_⟩
        intro i h1 h2
        cases i with
        | zero => simpa using hfa
        | succ n =>
          have h1n : n < as.length := by simpa using h1
          have h2n : n < bs.length := by simpa using h2
          simpa using hg n h1n h2n

theorem isPrefixOf_takeWhile (m : List Char) (p : Char → Bool)
    (hm : ∀ a ∈ m, p a = true) :
    ∀ cs : List Char, m.isPrefixOf (cs.takeWhile p) = m.isPrefixOf cs := by
  induction m with
  | nil => intro cs; simp [List.isPrefixOf]
  | cons a m ih =>
    intro cs
    cases cs with
    | nil => simp [List.takeWhile]
    | cons b cs2 =>
      by_cases hb : p b = true
      · rw [List.takeWhile_cons, if_pos hb]
        simp only [List.isPrefixOf]
        rw [ih (fun x hx => hm x (List.mem_cons_of_mem _ hx)) cs2]
      · rw [List.takeWhile_cons, if_neg hb]
        have ha : p a = true := hm a (by simp)
        have hab : (a == b) = false := by
          by_cases e : a = b
          · exact absurd (e ▸ ha) hb
          · simp [e]
        simp [List.isPrefixOf, hab]

theorem splitCh_head_eq_takeWhile (c : Char) (cs : List Char) :
    (splitCh c cs).headD [] = cs.takeWhile (fun x => x != c) := by
  induction cs with
  | nil => rfl
  | cons x xs ih =>
    by_cases h : x = c
    · subst h
      simp [splitCh, List.takeWhile]
    · simp only [splitCh, if_neg h]
      cases hs : splitCh c xs with
      | nil => exact absurd hs (splitCh_ne_nil c xs)
      | cons t ts =>
        rw [hs] at ih
        simp only [List.headD] at ih ⊢
        rw [List.takeWhile_cons, if_pos (by simp [h])]
        simp [ih]

theorem countDG_split (cs : List Char) :
    countDGaux true cs =
      ((splitCh '\n' cs).filter (fun l => dgMarker.isPrefixOf l)).length ∧
    countDGaux false cs =
      (((splitCh '\n' cs).drop 1).filter (fun l => dgMarker.isPrefixOf l)).length := by
  induction cs with
  | nil =>
    constructor <;> simp [countDGaux, splitCh, dgMarker, List.isPrefixOf]
  | cons x xs ih =>
    by_cases hx : x = '\n'
    · subst hx
      have h1 : splitCh '\n' ('\n' :: xs) = [] :: splitCh '\n' xs := by
        simp [splitCh]
      have hpre : dgMarker.isPrefixOf ('\n' :: xs) = false := by
        have hd : ('d' == '\n') = false := by decide
        simp [dgMarker, List.isPrefixOf, hd]
      have hnil : dgMarker.isPrefixOf ([] : List Char) = false := by decide
      constructor
      · simp only [countDGaux, hpre, h1, Bool.and_false, if_false]
        rw [List.filter_cons]
        simp only [hnil, if_false, Bool.false_eq_true]
        have hnn : ('\n' == '\n') = true := by decide
        rw [hnn]
        simpa using ih.1
      · simp only [countDGaux, h1]
        have hnn : ('\n' == '\n') = true := by decide
        rw [hnn]
        simpa using ih.1
    · cases hs : splitCh '\n' xs with
      | nil => exact absurd hs (splitCh_ne_nil '\n' xs)
      | cons t ts =>
        have hsx : splitCh '\n' (x :: xs) = (x :: t) :: ts := by
          simp [splitCh, if_neg hx, hs]
        have ht : t = xs.takeWhile (fun y => y != '\n') := by
          have h2 := splitCh_head_eq_takeWhile '\n' xs
          rw [hs] at h2
          simpa using h2
        have hpre2 : dgMarker.isPrefixOf (x :: xs) = dgMarker.isPrefixOf (x :: t) := by
          have h2 := isPrefixOf_takeWhile dgMarker (fun y => y != '\n') (by decide) (x :: xs)
          rw [List.takeWhile_cons, if_pos (by simp [hx])] at h2
          rw [ht]
          exact h2.symm
        have hxn : (x == '\n') = false := by simp [hx]
        constructor
        · simp only [countDGaux, hxn, hsx]
          rw [List.filter_cons]
          have hts : ts = (splitCh '\n' xs).drop 1 := by rw [hs]; rfl
          rw [← hpre2]
          by_cases hp : dgMarker.isPrefixOf (x :: xs) = true
          · simp only [hp, Bool.true_and, if_pos, if_true]
            have := ih.2
            rw [← hts] at this
            simp [this]; omega
          · have hp2 : dgMarker.isPrefixOf (x :: xs) = false := by
              revert hp; cases dgMarker.isPrefixOf (x :: xs) <;> simp
            simp only [hp2, Bool.and_false, if_false, Bool.false_eq_true]
            have := ih.2
            rw [← hts] at this
            simpa using this
        · simp only [countDGaux, hxn, hsx]
          have hts : ts = (splitCh '\n' xs).drop 1 := by rw [hs]; rfl
          have := ih.2
          rw [← hts] at this
          simpa using this

/-! ### Concrete inputs used by claim theorems -/

/-- A record whose header has six fields and whose patch contains three
`diff --git ` lines among six lines in total. -/
def c8ex : String :=
  "s\x1fd\x1fa\x1fe\x1fsub\x1fb\x1fdiff --git a/x b/x\nindex 1\ndiff --git a/y b/y\nhunk\ndiff --git a/z b/z\ntail"

/-- A one-record input whose stat line passes the shape gate but has a
non-integer first column, so variant A raises `ValueError`. -/
def c1badInput : String := "h\nbad\t1x\tp"

/-- A well-formed one-record input (header only). -/
def c1okInput : String := "s1\x1fd1"

/-- The variant A record produced for `c1okInput`. -/
def c1recA : CommitA := ⟨ "s1", "d1", "", "", "", "", []⟩

/-- A variant B record whose 7th segment starts with a newline and
contains an embedded unit separator. -/
def c2rec : List Char := ( "a\x1fb\x1fc\x1fd\x1fe\x1ff\x1f\nX\x1fY" ).data

/-- A record with a malformed stat line (`foo\tbar\tbaz`) that passes the
shape gate. -/
def c3rec : List Char := ( "h\nfoo\tbar\tbaz" ).data

/-- A variant B record whose 7th segment starts with two newlines. -/
def c4rec : List Char := ( "a\x1fb\x1fc\x1fd\x1fe\x1ff\x1f\n\nX" ).data

/-! ### Claim theorems -/

/-- C8 (confirmed): in variant B, for every record the `file_diffs` field
equals the number of newline-delimited lines of the resulting patch that
begin with the literal marker "diff --git " anchored at line start; on the
concrete `c8ex` whose patch has six lines, three of them marker lines, it
is 3 (independent of the total line count). -/
theorem c8_file_diff_count :
    (∀ rec : List Char, (parse_record rec).file_diffs =
      ((splitCh '\n' ((parse_record rec).patch.data)).filter
        (fun l => dgMarker.isPrefixOf l)).length) ∧
    (parse_record c8ex.data).file_diffs = 3 ∧
    (splitCh '\n' ((parse_record c8ex.data).patch.data)).length = 6 := by
  refine ⟨?_, by decide, by decide⟩
  intro rec
  simp only [parse_record]
  exact (countDG_split _).1

/-- C10 (confirmed): variant A accepts stat columns under full Python
`int` semantics, broader than plain digit strings: surrounding whitespace,
a leading sign, and underscore digit grouping all parse, as on the line
" 12 \t+3\tp" and the two variations below. -/
theorem c10_int_semantics :
    parseStatLine (( " 12 \t+3\tp" ).data) = some (some ⟨ "p", 12, 3⟩) ∧
    parseStatLine (( "1_2\t3\tq" ).data) = some (some ⟨ "q", 12, 3⟩) ∧
    parseStatLine (( "-3\t4\tr" ).data) = some (some ⟨ "r", -3, 4⟩) := by
  exact ⟨by decide, by decide, by decide⟩

/-- C7 (confirmed): a change-stat line whose added or deleted column is
the literal "-" yields 0 for that count; in particular the line
"-\t-\tbinary.png" produces the FileChange (binary.png, 0, 0). -/
theorem c7_dash_zero :
    parseStatLine (( "-\t-\tbinary.png" ).data) = some (some ⟨ "binary.png", 0, 0⟩) ∧
    (∀ (l : List Char) (rest : List (List Char)) (fc : FileChange),
      splitCh '\t' l = ['-'] :: rest →
      parseStatLine l = some (some fc) → fc.added = 0) ∧
    (∀ (l c0 : List Char) (rest : List (List Char)) (fc : FileChange),
      splitCh '\t' l = c0 :: ['-'] :: rest →
      parseStatLine l = some (some fc) → fc.deleted = 0) := by
  refine ⟨by decide, ?_, ?_⟩
  · intro l rest fc hsplit hp
    have h0 : parseCount (statCol0 l) = some 0 := by
      simp [statCol0, hsplit, parseCount]
    simp only [parseStatLine, h0] at hp
    cases hgB : statGate l with
    | false => rw [hgB] at hp; simp at hp
    | true =>
      rw [hgB] at hp
      simp only [if_true] at hp
      cases hd : parseCount (statCol1 l) with
      | none => rw [hd] at hp; exact absurd hp (by simp)
      | some d =>
        rw [hd] at hp
        have h2 : FileChange.mk (String.mk (joinSep '\t' ((splitCh '\t' l).drop 2))) 0 d = fc := by
          simpa using hp
        rw [← h2]
  · intro l c0 rest fc hsplit hp
    have h1 : parseCount (statCol1 l) = some 0 := by
      simp [statCol1, hsplit, parseCount]
    simp only [parseStatLine, h1] at hp
    cases hgB : statGate l with
    | false => rw [hgB] at hp; simp at hp
    | true =>
      rw [hgB] at hp
      simp only [if_true] at hp
      cases hd : parseCount (statCol0 l) with
      | none => rw [hd] at hp; exact absurd hp (by simp)
      | some a =>
        rw [hd] at hp
        have h2 : FileChange.mk (String.mk (joinSep '\t' ((splitCh '\t' l).drop 2))) a 0 = fc := by
          simpa using hp
        rw [← h2]

/-- C7 witness: the dash-column lemmas applied to the concrete accepted
lines "-\t5\tp" and "7\t-\tp". -/
theorem c7_witness :
    (FileChange.mk ( "p" ) 0 5).added = 0 ∧ (FileChange.mk ( "p" ) 7 0).deleted = 0 := by
  constructor
  · exact c7_dash_zero.2.1 (( "-\t5\tp" ).data) [['5'], ['p']] ⟨ "p", 0, 5⟩
      (by decide) (by decide)
  · exact c7_dash_zero.2.2 (( "7\t-\tp" ).data) ['7'] [['p']] ⟨ "p", 7, 0⟩
      (by decide) (by decide)

/-- C1 counterexample: an input with exactly one non-blank record fragment
on which variant A emits no record at all (the run aborts on the stat line
"bad\t1x\tp", whose columns pass the shape gate but fail `int()`), so it
is not the case that every converter emits one record per fragment for
every input. -/
theorem c1_counterexample :
    (recordsOf c1badInput).length = 1 ∧ convertA c1badInput = none := by
  exact ⟨by decide, by decide⟩

/-- C3 counterexample: a record containing the malformed change-stat line
"foo\tbar\tbaz"; parsing the record does not complete (the `int()` call
raises), so malformed stat lines are not always recovered from locally. -/
theorem c3_counterexample : parseRecordA c3rec = none := by decide

/-- C2 counterexample: a record whose 7th segment is "\nX\x1fY"; the
emitted patch field is "X\x1fY", not the 7th segment onward verbatim
(the leading newline is removed). -/
theorem c2_counterexample :
    (recPartsB c2rec).getD 6 [] = ( "\nX\x1fY" ).data ∧
    (parse_record c2rec).patch ≠ ( "\nX\x1fY" ) ∧
    (parse_record c2rec).patch = ( "X\x1fY" ) := by
  exact ⟨by decide, by decide, by decide⟩

/-- C4 counterexample: a record whose 7th segment is "\n\nX"; stripping
exactly one leading newline would give "\nX", but the emitted patch field
is "X": `lstrip` removes every leading newline, not just one. -/
theorem c4_counterexample :
    (recPartsB c4rec).getD 6 [] = ( "\n\nX" ).data ∧
    (parse_record c4rec).patch ≠ ( "\nX" ) ∧
    (parse_record c4rec).patch = ( "X" ) := by
  exact ⟨by decide, by decide, by decide⟩

/-- C1 (amended): variant B emits exactly one record per non-blank
fragment, in fragment order; variant A does so whenever its run completes
(that is, whenever `convertA` returns a list at all), the i-th output
record coming from the i-th fragment. -/
theorem c1_record_count :
    (∀ (data : String) (l : List CommitA), convertA data = some l →
      l.length = (recordsOf data).length ∧
      ∀ (i : Nat) (h1 : i < (recordsOf data).length) (h2 : i < l.length),
        parseRecordA ((recordsOf data).get ⟨i, h1⟩) = some (l.get ⟨i, h2⟩)) ∧
    (∀ data : String, (convertB data).length = (recordsOf data).length ∧
      ∀ (i : Nat) (h1 : i < (recordsOf data).length) (h2 : i < (convertB data).length),
        (convertB data).get ⟨i, h2⟩ = parse_record ((recordsOf data).get ⟨i, h1⟩)) := by
  constructor
  · intro data l h
    obtain ⟨hl, hg⟩ := optMap_eq_some h
    exact ⟨hl, fun i h1 h2 => hg i h1 h2⟩
  · intro data
    refine ⟨by simp [convertB], ?_⟩
    intro i h1 h2
    simp [convertB, List.get_eq_getElem, List.getElem_map]

/-- C1 witness: on the one-record input `c1okInput`, variant A emits
exactly one record and variant B emits exactly one line. -/
theorem c1_witness :
    List.length [c1recA] = (recordsOf c1okInput).length ∧
    (convertB c1okInput).length = (recordsOf c1okInput).length := by
  constructor
  · exact (c1_record_count.1 c1okInput [c1recA] (by decide)).1
  · exact (c1_record_count.2 c1okInput).1

/-- C3 (amended): a body line that fails the shape gate (no tab, fewer
than three tab columns, or a blank first or second column) is excluded
from the files list without error and without affecting the other lines;
but a line that passes the gate and whose first count column is neither
"-" nor a valid Python integer aborts the whole stat parse. -/
theorem c3_shape_gate_recovery :
    (∀ (xs : List (List Char)) (l : List Char) (ys : List (List Char)),
      statGate l = false →
      parseStatLines (xs ++ l :: ys) = parseStatLines (xs ++ ys)) ∧
    (∀ (xs : List (List Char)) (l : List Char) (ys : List (List Char)),
      statGate l = true → parseCount (statCol0 l) = none →
      parseStatLines (xs ++ l :: ys) = none) := by
  constructor
  · intro xs l ys hg
    have hskip : parseStatLine l = some none := by simp [parseStatLine, hg]
    induction xs with
    | nil => simp [parseStatLines, hskip]
    | cons x xs ih =>
      simp only [List.cons_append, parseStatLines, List.append_eq]
      rw [ih]
  · intro xs l ys hg hc
    have herr : parseStatLine l = none := by
      cases hd : parseCount (statCol1 l) <;> simp [parseStatLine, hg, hc, hd]
    induction xs with
    | nil => simp [parseStatLines, herr]
    | cons x xs ih =>
      simp only [List.cons_append, parseStatLines, List.append_eq]
      rw [ih]
      cases parseStatLine x with
      | none => rfl
      | some o => cases o <;> simp

/-- C3 witness: a line without tabs is skipped between accepted lines,
and a gate-passing line with non-integer columns aborts. -/
theorem c3_witness :
    parseStatLines ([( "1\t2\tp" ).data] ++ ( "no tabs" ).data :: []) =
      parseStatLines ([( "1\t2\tp" ).data] ++ []) ∧
    parseStatLines ([] ++ ( "x\ty\tz" ).data :: []) = none := by
  constructor
  · exact c3_shape_gate_recovery.1 [( "1\t2\tp" ).data] (( "no tabs" ).data) [] (by decide)
  · exact c3_shape_gate_recovery.2 [] (( "x\ty\tz" ).data) [] (by decide) (by decide)

/-! ### Lemmas about the embedded `int()` on digit strings -/

theorem dropWhile_all_false {p : Char → Bool} (cs : List Char)
    (h : ∀ c ∈ cs, p c = false) : cs.dropWhile p = cs := by
  cases cs with
  | nil => rfl
  | cons a l => rw [List.dropWhile_cons, if_neg (by simp [h a (by simp)])]

theorem digit_not_space {c : Char} (h : isDig c = true) : pyIsSpace c = false := by
  simp only [isDig, decide_eq_true_eq] at h
  simp only [pyIsSpace, decide_eq_false_iff_not]
  omega

theorem pyStrip_digits (cs : List Char) (h : ∀ c ∈ cs, isDig c = true) :
    pyStrip cs = cs := by
  have hns : ∀ c ∈ cs, pyIsSpace c = false := fun c hc => digit_not_space (h c hc)
  unfold pyStrip
  rw [dropWhile_all_false cs hns,
    dropWhile_all_false cs.reverse (fun c hc => hns c (List.mem_reverse.mp hc)),
    List.reverse_reverse]

theorem digRest_digits (r : List Char) :
    ∀ acc : Nat, (∀ c ∈ r, isDig c = true) → ∃ n : Nat, digRest acc r = some n := by
  induction r with
  | nil => intro acc _; exact ⟨acc, rfl⟩
  | cons c cs ih =>
    intro acc h
    have hc : isDig c = true := h c (by simp)
    rw [digRest.eq_def]
    simp only [hc, if_true]
    exact ih _ (fun x hx => h x (List.mem_cons_of_mem _ hx))

theorem pyInt_digits (cs : List Char) (hne : cs ≠ []) (h : ∀ c ∈ cs, isDig c = true) :
    ∃ n : Nat, pyInt cs = some (Int.ofNat n) := by
  unfold pyInt
  rw [pyStrip_digits cs h]
  cases cs with
  | nil => exact absurd rfl hne
  | cons c r =>
    have hc : isDig c = true := h c (by simp)
    have hp : ¬ c = '+' := by
      intro e; subst e
      simp only [isDig, decide_eq_true_eq] at hc
      exact absurd hc (by decide)
    have hm : ¬ c = '-' := by
      intro e; subst e
      simp only [isDig, decide_eq_true_eq] at hc
      exact absurd hc (by decide)
    rw [pyIntCore, if_neg hp, if_neg hm]
    simp only [startDig, hc, if_true]
    obtain ⟨n, hn⟩ := digRest_digits r _ (fun x hx => h x (List.mem_cons_of_mem _ hx))
    exact ⟨n, by rw [hn]; rfl⟩

/-- A column of the documented input format: either the literal "-" or a
nonempty all-digit decimal string. -/
def decCol (cs : List Char) : Prop :=
  cs = ['-'] ∨ (cs ≠ [] ∧ ∀ c ∈ cs, isDig c = true)

instance decColDecidable (cs : List Char) : Decidable (decCol cs) := by
  unfold decCol
  exact inferInstance

theorem parseCount_decCol (cs : List Char) (h : decCol cs) :
    ∃ v : Int, parseCount cs = some v ∧ 0 ≤ v := by
  by_cases hd : cs = ['-']
  · exact ⟨0, by simp [parseCount, hd], le_refl 0⟩
  · rcases h with h | ⟨h1, h2⟩
    · exact absurd h hd
    · obtain ⟨n, hn⟩ := pyInt_digits cs h1 h2
      exact ⟨Int.ofNat n, by simp [parseCount, hd, hn], Int.ofNat_nonneg n⟩

theorem parseStatLines_decCol (lines : List (List Char))
    (h : ∀ l ∈ lines, statGate l = true → decCol (statCol0 l) ∧ decCol (statCol1 l)) :
    ∃ fcs, parseStatLines lines = some fcs ∧
      ∀ fc ∈ fcs, 0 ≤ fc.added ∧ 0 ≤ fc.deleted := by
  induction lines with
  | nil => exact ⟨[], rfl, by simp⟩
  | cons l ls ih =>
    obtain ⟨fcs, hf, hpos⟩ := ih (fun l2 hl2 => h l2 (List.mem_cons_of_mem _ hl2))
    cases hg : statGate l with
    | true =>
      obtain ⟨h0, h1⟩ := h l (by simp) hg
      obtain ⟨a, ha, ha0⟩ := parseCount_decCol _ h0
      obtain ⟨d, hd, hd0⟩ := parseCount_decCol _ h1
      refine ⟨⟨String.mk (joinSep '\t' ((splitCh '\t' l).drop 2)), a, d⟩ :: fcs, ?_, ?_⟩
      · simp [parseStatLines, parseStatLine, hg, ha, hd, hf]
      · intro fc hfc
        rcases List.mem_cons.mp hfc with rfl | hm
        · exact ⟨ha0, hd0⟩
        · exact hpos fc hm
    | false =>
      refine ⟨fcs, ?_, hpos⟩
      have hskip : parseStatLine l = some none := by simp [parseStatLine, hg]
      simp [parseStatLines, hskip, hf]

/-- C5 (confirmed): for every record whose gate-accepted stat-line columns
are decimal digit strings or the literal "-", variant A parses the record
and every emitted FileChange has non-negative added and deleted counts. -/
theorem c5_nonneg_counts (rec : List Char)
    (h : ∀ l ∈ pySplitlines (bodyPart rec),
      statGate l = true → decCol (statCol0 l) ∧ decCol (statCol1 l)) :
    ∃ c, parseRecordA rec = some c ∧
      ∀ fc ∈ c.files, 0 ≤ fc.added ∧ 0 ≤ fc.deleted := by
  obtain ⟨fcs, hf, hpos⟩ := parseStatLines_decCol _ h
  unfold parseRecordA
  rw [hf]
  refine ⟨_, rfl, ?_⟩
  intro fc hfc
  exact hpos fc hfc

/-- C5 witness: a record with the stat lines "1\t2\tp" and "-\t3\tq". -/
theorem c5_witness :
    ∃ c, parseRecordA (( "h\n1\t2\tp\n-\t3\tq" ).data) = some c ∧
      ∀ fc ∈ c.files, 0 ≤ fc.added ∧ 0 ≤ fc.deleted := by
  exact c5_nonneg_counts (( "h\n1\t2\tp\n-\t3\tq" ).data) (by decide)

theorem drop_six_eq_replicate (s0 s1 s2 s3 s4 s5 : String) (k : Nat) (hk : k < 6)
    (hs : ∀ i, k ≤ i → i < 6 → List.getD [s0, s1, s2, s3, s4, s5] i "" = "") :
    List.drop k [s0, s1, s2, s3, s4, s5] = List.replicate (6 - k) "" := by
  have e0 : k ≤ 0 → s0 = "" := fun h => hs 0 h (by omega)
  have e1 : k ≤ 1 → s1 = "" := fun h => hs 1 h (by omega)
  have e2 : k ≤ 2 → s2 = "" := fun h => hs 2 h (by omega)
  have e3 : k ≤ 3 → s3 = "" := fun h => hs 3 h (by omega)
  have e4 : k ≤ 4 → s4 = "" := fun h => hs 4 h (by omega)
  have e5 : k ≤ 5 → s5 = "" := fun h => hs 5 h (by omega)
  interval_cases k
  · rw [e0 (by omega), e1 (by omega), e2 (by omega), e3 (by omega), e4 (by omega),
      e5 (by omega)]
    rfl
  · rw [e1 (by omega), e2 (by omega), e3 (by omega), e4 (by omega), e5 (by omega)]
    rfl
  · rw [e2 (by omega), e3 (by omega), e4 (by omega), e5 (by omega)]
    rfl
  · rw [e3 (by omega), e4 (by omega), e5 (by omega)]
    rfl
  · rw [e4 (by omega), e5 (by omega)]
    rfl
  · rw [e5 (by omega)]
    rfl

/-- C6 (confirmed): in both variants, when the header yields fewer than 6
unit-separator fields, all trailing header fields of the output record are
the empty string (the record type itself guarantees the fixed key set). -/
theorem c6_field_padding :
    (∀ (rec : List Char) (c : CommitA), parseRecordA rec = some c →
      (headerParts rec).length < 6 →
      List.drop (headerParts rec).length
        [c.sha, c.date, c.author, c.email, c.subject, c.body] =
        List.replicate (6 - (headerParts rec).length) "") ∧
    (∀ rec : List Char, (recPartsB rec).length < 6 →
      List.drop (recPartsB rec).length
        [(parse_record rec).sha, (parse_record rec).date, (parse_record rec).author,
          (parse_record rec).email, (parse_record rec).subject, (parse_record rec).body] =
        List.replicate (6 - (recPartsB rec).length) "") := by
  constructor
  · intro rec c h hlen
    unfold parseRecordA at h
    cases hf : parseStatLines (pySplitlines (bodyPart rec)) with
    | none => rw [hf] at h; exact absurd h (by simp)
    | some fcs =>
      rw [hf] at h
      have h2 := Option.some.inj h
      subst h2
      have g : ∀ j, (headerParts rec).length ≤ j → (headerParts rec).getD j [] = [] :=
        fun j hj => List.getD_eq_default _ _ hj
      apply drop_six_eq_replicate _ _ _ _ _ _ _ hlen
      intro i hki hi6
      interval_cases i
      · show String.mk ((headerParts rec).getD 0 []) = ""
        rw [g 0 (by omega)]
      · show String.mk ((headerParts rec).getD 1 []) = ""
        rw [g 1 (by omega)]
      · show String.mk ((headerParts rec).getD 2 []) = ""
        rw [g 2 (by omega)]
      · show String.mk ((headerParts rec).getD 3 []) = ""
        rw [g 3 (by omega)]
      · show String.mk ((headerParts rec).getD 4 []) = ""
        rw [g 4 (by omega)]
      · show String.mk (pyStrip ((headerParts rec).getD 5 [])) = ""
        rw [g 5 (by omega)]
        rfl
  · intro rec hlen
    have g : ∀ j, (recPartsB rec).length ≤ j → (recPartsB rec).getD j [] = [] :=
      fun j hj => List.getD_eq_default _ _ hj
    apply drop_six_eq_replicate _ _ _ _ _ _ _ hlen
    intro i hki hi6
    interval_cases i
    · show String.mk ((recPartsB rec).getD 0 []) = ""
      rw [g 0 (by omega)]
    · show String.mk ((recPartsB rec).getD 1 []) = ""
      rw [g 1 (by omega)]
    · show String.mk ((recPartsB rec).getD 2 []) = ""
      rw [g 2 (by omega)]
    · show String.mk ((recPartsB rec).getD 3 []) = ""
      rw [g 3 (by omega)]
    · show String.mk ((recPartsB rec).getD 4 []) = ""
      rw [g 4 (by omega)]
    · show String.mk (pyStrip ((recPartsB rec).getD 5 [])) = ""
      rw [g 5 (by omega)]
      rfl

/-- A two-field record used to exercise the padding theorems. -/
def c6in : List Char := ( "a\x1fb" ).data

/-- The variant A record produced for `c6in`. -/
def c6recA : CommitA := ⟨ "a", "b", "", "", "", "", []⟩

/-- C6 witness: the padding theorems applied to a record with only two
header fields. -/
theorem c6_witness :
    (List.drop (headerParts c6in).length
      [c6recA.sha, c6recA.date, c6recA.author, c6recA.email, c6recA.subject, c6recA.body] =
      List.replicate (6 - (headerParts c6in).length) "") ∧
    (List.drop (recPartsB c6in).length
      [(parse_record c6in).sha, (parse_record c6in).date, (parse_record c6in).author,
        (parse_record c6in).email, (parse_record c6in).subject, (parse_record c6in).body] =
      List.replicate (6 - (recPartsB c6in).length) "") := by
  constructor
  · exact c6_field_padding.1 c6in c6recA (by decide) (by decide)
  · exact c6_field_padding.2 c6in (by decide)

theorem not_mem_joinSep (x c : Char) (ps : List (List Char)) (hxc : x ≠ c)
    (h : ∀ p ∈ ps, x ∉ p) : x ∉ joinSep c ps := by
  intro hm
  rcases mem_joinSep hm with h1 | ⟨p, hp, hxp⟩
  · exact hxc h1
  · exact h p hp hxp

theorem headerParts_join (ps : List (List Char)) (b : List Char) (hne : ps ≠ [])
    (hp : ∀ p ∈ ps, '\x1f' ∉ p ∧ '\n' ∉ p) :
    headerParts (joinSep '\x1f' ps ++ '\n' :: b) = ps ∧
    bodyPart (joinSep '\x1f' ps ++ '\n' :: b) = b := by
  have hnl : '\n' ∉ joinSep '\x1f' ps :=
    not_mem_joinSep '\n' '\x1f' ps (by decide) (fun p hp2 => (hp p hp2).2)
  have hsplit : splitChM '\n' 1 (joinSep '\x1f' ps ++ '\n' :: b) = [joinSep '\x1f' ps, b] := by
    have h1 := splitChM_append_cons '\n' 0 (joinSep '\x1f' ps) b hnl
    rw [splitChM_zero] at h1
    simpa using h1
  constructor
  · unfold headerParts
    rw [hsplit]
    show splitCh '\x1f' (joinSep '\x1f' ps) = ps
    exact joinSep_split '\x1f' ps hne (fun p hp2 => (hp p hp2).1)
  · unfold bodyPart
    rw [hsplit]
    rfl

/-- C9 (confirmed): in variant A, header fields beyond the sixth are
silently discarded: a record built from six fields plus any extra fields
parses identically to the record without the extras, and the output
fields are exactly the first six. -/
theorem c9_header_truncation :
    ∀ (q0 q1 q2 q3 q4 q5 : List Char) (es : List (List Char)) (b : List Char),
      (∀ p ∈ [q0, q1, q2, q3, q4, q5], '\x1f' ∉ p ∧ '\n' ∉ p) →
      (∀ e ∈ es, '\x1f' ∉ e ∧ '\n' ∉ e) →
      parseRecordA (joinSep '\x1f' ([q0, q1, q2, q3, q4, q5] ++ es) ++ '\n' :: b) =
        parseRecordA (joinSep '\x1f' [q0, q1, q2, q3, q4, q5] ++ '\n' :: b) ∧
      ∀ c, parseRecordA (joinSep '\x1f' ([q0, q1, q2, q3, q4, q5] ++ es) ++ '\n' :: b) = some c →
        c.sha = String.mk q0 ∧ c.date = String.mk q1 ∧ c.author = String.mk q2 ∧
        c.email = String.mk q3 ∧ c.subject = String.mk q4 ∧
        c.body = String.mk (pyStrip q5) := by
  intro q0 q1 q2 q3 q4 q5 es b hq he
  have hall : ∀ p ∈ [q0, q1, q2, q3, q4, q5] ++ es, '\x1f' ∉ p ∧ '\n' ∉ p := by
    intro p hp
    rcases List.mem_append.mp hp with h1 | h2
    · exact hq p h1
    · exact he p h2
  obtain ⟨hh1, hb1⟩ := headerParts_join ([q0, q1, q2, q3, q4, q5] ++ es) b (by simp) hall
  obtain ⟨hh2, hb2⟩ := headerParts_join [q0, q1, q2, q3, q4, q5] b (by simp) hq
  have hgets : ∀ i, i < 6 →
      ([q0, q1, q2, q3, q4, q5] ++ es).getD i [] = [q0, q1, q2, q3, q4, q5].getD i [] :=
    fun i hi => List.getD_append _ _ _ _ (by simpa using hi)
  constructor
  · unfold parseRecordA
    rw [hh1, hh2, hb1, hb2, hgets 0 (by omega), hgets 1 (by omega), hgets 2 (by omega),
      hgets 3 (by omega), hgets 4 (by omega), hgets 5 (by omega)]
  · intro c h
    unfold parseRecordA at h
    rw [hh1, hb1] at h
    cases hf : parseStatLines (pySplitlines b) with
    | none => rw [hf] at h; exact absurd h (by simp)
    | some fcs =>
      rw [hf] at h
      have h2 := Option.some.inj h
      subst h2
      refine ⟨?_, ?_, ?_, ?_, ?_, ?_⟩
      · show String.mk (([q0, q1, q2, q3, q4, q5] ++ es).getD 0 []) = String.mk q0
        rw [hgets 0 (by omega)]
        rfl
      · show String.mk (([q0, q1, q2, q3, q4, q5] ++ es).getD 1 []) = String.mk q1
        rw [hgets 1 (by omega)]
        rfl
      · show String.mk (([q0, q1, q2, q3, q4, q5] ++ es).getD 2 []) = String.mk q2
        rw [hgets 2 (by omega)]
        rfl
      · show String.mk (([q0, q1, q2, q3, q4, q5] ++ es).getD 3 []) = String.mk q3
        rw [hgets 3 (by omega)]
        rfl
      · show String.mk (([q0, q1, q2, q3, q4, q5] ++ es).getD 4 []) = String.mk q4
        rw [hgets 4 (by omega)]
        rfl
      · show String.mk (pyStrip (([q0, q1, q2, q3, q4, q5] ++ es).getD 5 [])) =
          String.mk (pyStrip q5)
        rw [hgets 5 (by omega)]
        rfl

/-- C9 witness: a seventh header field "x" does not change the parsed
record. -/
theorem c9_witness :
    parseRecordA (joinSep '\x1f' ([['a'], ['b'], ['c'], ['d'], ['e'], ['f']] ++ [['x']]) ++
        '\n' :: []) =
      parseRecordA (joinSep '\x1f' [['a'], ['b'], ['c'], ['d'], ['e'], ['f']] ++ '\n' :: []) := by
  exact (c9_header_truncation ['a'] ['b'] ['c'] ['d'] ['e'] ['f'] [['x']] []
    (by decide) (by decide)).1

theorem recPartsB_join (s0 s1 s2 s3 s4 s5 s6 : List Char)
    (h : ∀ p ∈ [s0, s1, s2, s3, s4, s5], '\x1f' ∉ p) :
    recPartsB (joinSep '\x1f' [s0, s1, s2, s3, s4, s5] ++ '\x1f' :: s6) =
      [s0, s1, s2, s3, s4, s5, s6] := by
  have hj : joinSep '\x1f' [s0, s1, s2, s3, s4, s5] ++ '\x1f' :: s6 =
      s0 ++ '\x1f' :: (s1 ++ '\x1f' :: (s2 ++ '\x1f' :: (s3 ++ '\x1f' ::
        (s4 ++ '\x1f' :: (s5 ++ '\x1f' :: s6))))) := by
    simp [joinSep, List.append_assoc]
  unfold recPartsB
  rw [hj, show (6 : Nat) = 5 + 1 from rfl,
    splitChM_append_cons '\x1f' 5 s0 _ (h s0 (by simp)),
    show (5 : Nat) = 4 + 1 from rfl,
    splitChM_append_cons '\x1f' 4 s1 _ (h s1 (by simp)),
    show (4 : Nat) = 3 + 1 from rfl,
    splitChM_append_cons '\x1f' 3 s2 _ (h s2 (by simp)),
    show (3 : Nat) = 2 + 1 from rfl,
    splitChM_append_cons '\x1f' 2 s3 _ (h s3 (by simp)),
    show (2 : Nat) = 1 + 1 from rfl,
    splitChM_append_cons '\x1f' 1 s4 _ (h s4 (by simp)),
    show (1 : Nat) = 0 + 1 from rfl,
    splitChM_append_cons '\x1f' 0 s5 _ (h s5 (by simp)),
    splitChM_zero]

theorem parse_record_join (s0 s1 s2 s3 s4 s5 s6 : List Char)
    (h : ∀ p ∈ [s0, s1, s2, s3, s4, s5], '\x1f' ∉ p) :
    parse_record (joinSep '\x1f' [s0, s1, s2, s3, s4, s5] ++ '\x1f' :: s6) =
      { sha := String.mk s0, date := String.mk s1, author := String.mk s2,
        email := String.mk s3, subject := String.mk s4, body := String.mk (pyStrip s5),
        file_diffs := countDGaux true (s6.dropWhile (fun c => c == '\n')),
        patch := String.mk (s6.dropWhile (fun c => c == '\n')) } := by
  unfold parse_record
  rw [recPartsB_join s0 s1 s2 s3 s4 s5 s6 h]
  rfl

/-- C2 (amended): in variant B the split stops after 6 separators: for
any record made of six separator-free header segments followed by an
arbitrary 7th segment, the first six segments become sha, date, author,
email, subject, body (the body stripped), and the patch field is the 7th
segment onward with its leading newlines removed and everything else kept
verbatim, including any embedded 0x1F bytes. -/
theorem c2_split_stops_after_six :
    ∀ (s0 s1 s2 s3 s4 s5 s6 : List Char),
      (∀ p ∈ [s0, s1, s2, s3, s4, s5], '\x1f' ∉ p) →
      (parse_record (joinSep '\x1f' [s0, s1, s2, s3, s4, s5] ++ '\x1f' :: s6)).patch =
        String.mk (s6.dropWhile (fun c => c == '\n')) ∧
      (parse_record (joinSep '\x1f' [s0, s1, s2, s3, s4, s5] ++ '\x1f' :: s6)).sha =
        String.mk s0 ∧
      (parse_record (joinSep '\x1f' [s0, s1, s2, s3, s4, s5] ++ '\x1f' :: s6)).date =
        String.mk s1 ∧
      (parse_record (joinSep '\x1f' [s0, s1, s2, s3, s4, s5] ++ '\x1f' :: s6)).author =
        String.mk s2 ∧
      (parse_record (joinSep '\x1f' [s0, s1, s2, s3, s4, s5] ++ '\x1f' :: s6)).email =
        String.mk s3 ∧
      (parse_record (joinSep '\x1f' [s0, s1, s2, s3, s4, s5] ++ '\x1f' :: s6)).subject =
        String.mk s4 ∧
      (parse_record (joinSep '\x1f' [s0, s1, s2, s3, s4, s5] ++ '\x1f' :: s6)).body =
        String.mk (pyStrip s5) := by
  intro s0 s1 s2 s3 s4 s5 s6 h
  rw [parse_record_join s0 s1 s2 s3 s4 s5 s6 h]
  exact ⟨rfl, rfl, rfl, rfl, rfl, rfl, rfl⟩

/-- C2 witness: a 7th segment "X\x1fY" with an embedded unit separator
and no leading newline is kept whole as the patch. -/
theorem c2_witness :
    (parse_record (joinSep '\x1f' [['a'], ['b'], ['c'], ['d'], ['e'], ['f']] ++
        '\x1f' :: ( "X\x1fY" ).data)).patch =
      String.mk (( "X\x1fY" ).data.dropWhile (fun c => c == '\n')) := by
  exact (c2_split_stops_after_six ['a'] ['b'] ['c'] ['d'] ['e'] ['f']
    (( "X\x1fY" ).data) (by decide)).1

/-- C4 (amended): in variant B, every leading newline of the 7th segment
is stripped to form the patch field (not just a single one); the rest of
the segment is preserved unchanged. -/
theorem c4_strip_all_leading_newlines :
    ∀ (s0 s1 s2 s3 s4 s5 : List Char),
      (∀ p ∈ [s0, s1, s2, s3, s4, s5], '\x1f' ∉ p) →
      ∀ (n : Nat) (t : List Char), t.head? ≠ some '\n' →
        (parse_record (joinSep '\x1f' [s0, s1, s2, s3, s4, s5] ++ '\x1f' ::
          (List.replicate n '\n' ++ t))).patch = String.mk t := by
  intro s0 s1 s2 s3 s4 s5 h n t ht
  rw [parse_record_join _ _ _ _ _ _ _ h]
  have hd : (List.replicate n '\n' ++ t).dropWhile (fun c => c == '\n') = t := by
    induction n with
    | zero =>
      simp only [List.replicate, List.nil_append]
      cases t with
      | nil => rfl
      | cons c t2 =>
        have hc : ¬ c = '\n' := fun e => ht (by simp [e])
        rw [List.dropWhile_cons, if_neg (by simp [hc])]
    | succ m ih =>
      rw [List.replicate_succ, List.cons_append, List.dropWhile_cons]
      simp only [beq_self_eq_true, if_true]
      exact ih
  rw [hd]

/-- C4 witness: two leading newlines before "X" are both stripped. -/
theorem c4_witness :
    (parse_record (joinSep '\x1f' [['a'], ['b'], ['c'], ['d'], ['e'], ['f']] ++
        '\x1f' :: (List.replicate 2 '\n' ++ ['X']))).patch = String.mk ['X'] := by
  exact c4_strip_all_leading_newlines ['a'] ['b'] ['c'] ['d'] ['e'] ['f']
    (by decide) 2 ['X'] (by decide)
